import Mathlib

/-!
A verification development for the hyperpolyglot language-detection library.

The Rust sources are embedded shallowly:

* pure string and list manipulation is translated to Lean functions over
  `String` / `List Char` / `List String`;
* the compile-time knowledge-base tables (`FILENAMES`, `EXTENSIONS`,
  `INTERPRETERS`, `DISAMBIGUATIONS`, `TOKEN_LOG_PROBABILITIES`) are generated
  at build time from YAML catalogs and are not part of the sources, so the
  embedded functions take them as explicit parameters of the corresponding
  lookup type;
* PCRE regex matching (used by the heuristics patterns and by the
  `sh`-shebang `exec` capture) is passed in as an oracle function;
* `f64` log-probability scores are modelled as exact rationals, with
  `⊥ : WithBot ℚ` for `f64::NEG_INFINITY` (no NaN arises: every score is
  either `⊥` or a finite sum of table values);
* file I/O in `detect` is modelled by an `Except Unit String` value: `.ok c`
  means every read of the file yields content `c`, `.error ()` means opening
  or reading the file fails with an I/O error.
-/

namespace Hyperpolyglot

/-! ## Character helpers

ASCII fragments of the Rust `char` classification methods.  All inputs in the
concrete theorems below are ASCII; non-ASCII code points of the Unicode
classes `Alphabetic`, `White_Space` and `Numeric` are not modelled.
-/

/-- ASCII fragment of Rust `char::is_whitespace`. -/
def rIsWhitespace (c : Char) : Bool :=
  c = ' ' || c = '\t' || c = '\n' || c = '\r' || c = '\x0b' || c = '\x0c'

/-- ASCII fragment of Rust `char::is_alphabetic`. -/
def rIsAlphabetic (c : Char) : Bool :=
  ('a' ≤ c && c ≤ 'z') || ('A' ≤ c && c ≤ 'Z')

/-- Rust `char::is_ascii_digit` / the regex class `[0-9]`. -/
def rIsDigit (c : Char) : Bool :=
  '0' ≤ c && c ≤ '9'

/-- ASCII fragment of Rust `char::is_numeric`. -/
def rIsNumeric (c : Char) : Bool := rIsDigit c

/-- ASCII fragment of Rust `char::is_alphanumeric`. -/
def rIsAlphanumeric (c : Char) : Bool := rIsAlphabetic c || rIsDigit c

/-- Rust `char::is_ascii_punctuation`. -/
def rIsAsciiPunctuation (c : Char) : Bool :=
  (33 ≤ c.toNat && c.toNat ≤ 47) || (58 ≤ c.toNat && c.toNat ≤ 64) ||
  (91 ≤ c.toNat && c.toNat ≤ 96) || (123 ≤ c.toNat && c.toNat ≤ 126)

/-- Rust `char::to_ascii_lowercase`. -/
def rToAsciiLower (c : Char) : Char :=
  if 'A' ≤ c && c ≤ 'Z' then Char.ofNat (c.toNat + 32) else c

/-- The word-character class `[A-Za-z0-9_]` of the logos lexer in
`src/tokenizer.rs`. -/
def isWordChar (c : Char) : Bool := rIsAlphanumeric c || c = '_'

/-! ## `src/src/lib.rs`: `filter_candidates` -/

/-- Embedding of `filter_candidates` from `src/lib.rs`: keep the previous
candidates that also occur among the new ones, with fallbacks when either
list is empty or the intersection would be empty. -/
def filter_candidates (previous_candidates new_candidates : List String) :
    List String :=
  if previous_candidates.isEmpty then new_candidates
  else if new_candidates.isEmpty then previous_candidates
  else
    let filtered_candidates :=
      previous_candidates.filter (fun l => new_candidates.contains l)
    match filtered_candidates with
    | [] => previous_candidates
    | _ => filtered_candidates

/-- Closed-form description of `filter_candidates` used by the proofs. -/
theorem filter_candidates_eq (prev new : List String) :
    filter_candidates prev new =
      if prev = [] then new
      else if new = [] then prev
      else if prev.filter (fun l => new.contains l) = [] then prev
      else prev.filter (fun l => new.contains l) := by
  rw [filter_candidates]
  by_cases hp : prev = []
  · simp [hp]
  · rw [if_neg (by simpa [List.isEmpty_iff] using hp), if_neg hp]
    by_cases hn : new = []
    · simp [hn]
    · rw [if_neg (by simpa [List.isEmpty_iff] using hn), if_neg hn]
      dsimp only
      cases hf : prev.filter (fun l => new.contains l) with
      | nil => simp [hf]
      | cons a t => simp [hf]

/-! ## C6 -/

/-- **C6.** `filter_candidates prev new` returns `new` when `prev` is empty,
`prev` when `new` is empty, the intersection (in the order of `prev`)
otherwise — except that an empty intersection yields `prev` — so the result
is a subset of `prev ∪ new`, and two non-empty disjoint inputs yield exactly
`prev`. -/
theorem filter_candidates_spec (prev new : List String) :
    (prev = [] → filter_candidates prev new = new) ∧
    (new = [] → filter_candidates prev new = prev) ∧
    (prev ≠ [] → new ≠ [] →
      filter_candidates prev new =
        (if prev.filter (fun l => new.contains l) = [] then prev
         else prev.filter (fun l => new.contains l))) ∧
    (∀ x ∈ filter_candidates prev new, x ∈ prev ∨ x ∈ new) ∧
    (prev ≠ [] → new ≠ [] → (∀ x ∈ prev, x ∉ new) →
      filter_candidates prev new = prev) := by
  rw [filter_candidates_eq]
  refine ⟨?_, ?_, ?_, ?_, ?_⟩
  · intro h; simp [h]
  · intro h; simp [h]
  · intro hp hn
    rw [if_neg hp, if_neg hn]
  · intro x hx
    split at hx
    · exact Or.inr hx
    · split at hx
      · exact Or.inl hx
      · split at hx
        · exact Or.inl hx
        · exact Or.inl (List.mem_of_mem_filter hx)
  · intro hp hn hdisj
    rw [if_neg hp, if_neg hn]
    have hfilter : prev.filter (fun l => new.contains l) = [] := by
      rw [List.filter_eq_nil_iff]
      intro a ha
      simpa using hdisj a ha
    rw [if_pos hfilter]

/-- Witness for C6 at concrete inputs: two non-empty disjoint candidate
lists yield the previous list. -/
theorem filter_candidates_spec_witness :
    filter_candidates ["Python"] ["JavaScript", "Erlang"] = ["Python"] :=
  (filter_candidates_spec ["Python"] ["JavaScript", "Erlang"]).2.2.2.2
    (by decide) (by decide) (by decide)

/-! ## `src/src/tokenizer.rs`: the logos lexer used by the classifier

`Token::Text` is the regex `[A-Za-z0-9_]+` (greedy), `Token::Symbol` is a
single character matching `[^A-Za-z0-9_\s]`, and everything else (i.e.
whitespace) lexes to the `#[error]` variant, which `tokenize` filters out
together with nothing else: `tokenize` yields the `Text` and `Symbol` slices
in order. -/

/-- Embedding of `tokenize` from `src/tokenizer.rs` at the level of
character lists: maximal `[A-Za-z0-9_]+` runs and single non-word,
non-whitespace characters, with whitespace dropped.  `acc` accumulates (in
reverse) the word run currently being lexed, realising the greedy munch of
the `[A-Za-z0-9_]+` regex by structural recursion. -/
def lexGo (acc : List Char) : List Char → List (List Char)
  | [] => if acc.isEmpty then [] else [acc.reverse]
  | c :: cs =>
    if isWordChar c then lexGo (c :: acc) cs
    else
      (if acc.isEmpty then [] else [acc.reverse]) ++
        (if rIsWhitespace c then lexGo [] cs else [c] :: lexGo [] cs)

/-- `tokenize` on strings; tokens are returned as strings. -/
def tokenize (content : String) : List String :=
  (lexGo [] content.data).map (fun l => String.mk l)

/-! ## `src/src/detectors/classifier.rs`: the naive-Bayes classifier

The generated table `TOKEN_LOG_PROBABILITIES : phf::Map<&str, phf::Map<&str,
f64>>` is a build-time input; it is the `table` parameter below, of type
`String → Option (String → Option ℚ)`.  `f64` scores are modelled as exact
rationals with `⊥ : WithBot ℚ` for `f64::NEG_INFINITY`; the `sort_by`
comparator `b.score.partial_cmp(&a.score).unwrap_or(Equal)` never sees a NaN
in this model, so it is the reverse linear order on `WithBot ℚ`. -/

/-- The generated `LANGUAGES` array from `src/codegen/languages.rs`
(`include!`d by the classifier): the universe of known language names. -/
def LANGUAGES : List String := ["Jison Lex", "Pep8", "Module Management System", "Less", "Roff", "Bluespec", "ShellSession", "TSX", "CodeQL", "MTML", "Objective-J", "Squirrel", "YASnippet", "Xtend", "Graph Modeling Language", "Dhall", "HTML+PHP", "Lex", "Diff", "Slim", "VHDL", "ZAP", "mcfunction", "Gradle", "Pod 6", "Git Config", "Hy", "Logtalk", "Grace", "RAML", "Modelica", "Processing", "Raw token data", "IRC log", "Pug", "PostCSS", "Factor", "Public Key", "Python", "SQF", "Click", "Java Properties", "Text", "Brightscript", "JSON5", "Gnuplot", "DM", "Vala", "FLUX", "Reason", "X Font Directory Index", "Objective-C++", "Proguard", "Literate Agda", "Filterscript", "PowerBuilder", "M", "BibTeX", "Myghty", "Nu", "Haxe", "Terra", "Object Data Instance Notation", "Charity", "GAMS", "GN", "Ioke", "MAXScript", "Makefile", "PowerShell", "Cloud Firestore Security Rules", "CMake", "KiCad Legacy Layout", "LookML", "P4", "Windows Registry Entries", "API Blueprint", "RobotFramework", "X PixMap", "Groovy Server Pages", "NPM Config", "Nextflow", "QMake", "Type Language", "Modula-2", "4D", "BlitzBasic", "CSV", "Racket", "JavaScript+ERB", "Batchfile", "Pony", "ColdFusion CFC", "DirectX 3D File", "QML", "TI Program", "Assembly", "Readline Config", "TLA", "Omgrofl", "Max", "Vim script", "NASL", "Wollok", "Haml", "Nim", "Faust", "Wavefront Material", "Crystal", "EditorConfig", "HCL", "RUNOFF", "Starlark", "Pike", "Fantom", "Blade", "TOML", "AppleScript", "Xojo", "OpenType Feature File", "Component Pascal", "Ox", "Uno", "LFE", "Maven POM", "Augeas", "AMPL", "Ragel", "WebAssembly", "CLIPS", "PureScript", "Elm", "Twig", "Agda", "Latte", "Tea", "Altium Designer", "C2hs Haskell", "Fortran", "Grammatical Framework", "Literate CoffeeScript", "NumPy", "PigLatin", "Rebol", "AutoHotkey", "Zig", "Gherkin", "Turtle", "Ignore List", "Inno Setup", "Metal", "Go", "REXX", "EmberScript", "Graphviz (DOT)", "Java", "Self", "RPC", "Mathematica", "Closure Templates", "Papyrus", "MoonScript", "Org", "Pic", "desktop", "Perl", "mupad", "X10", "Zimpl", "Open Policy Agent", "OpenStep Property List", "SMT", "Forth", "Io", "Lua", "Roff Manpage", "HTML+EEX", "EJS", "Jolie", "Objective-C", "Smali", "SaltStack", "Dockerfile", "Python console", "wdl", "Cycript", "Zeek", "Unity3D Asset", "DTrace", "Ada", "CoffeeScript", "Pan", "YARA", "Golo", "JSONiq", "SugarSS", "Unix Assembly", "Clean", "FreeMarker", "Handlebars", "Ruby", "Markdown", "Vim Snippet", "POV-Ray SDL", "Clarion", "Emacs Lisp", "D-ObjDump", "Nginx", "Opal", "PostScript", "Puppet", "WebVTT", "reStructuredText", "Swift", "Boo", "SubRip Text", "M4Sugar", "Glyph Bitmap Distribution Format", "PlantUML", "STON", "GAP", "Common Lisp", "Stata", "NSIS", "LSL", "SVG", "xBase", "GAML", "MQL4", "Ant Build System", "Cool", "SWIG", "NewLisp", "OpenQASM", "Oz", "Game Maker Language", "NCL", "BlitzMax", "LiveScript", "XCompose", "Inform 7", "HTML+ERB", "OpenSCAD", "Apex", "Julia", "Red", "q", "R", "Kotlin", "Linker Script", "Filebench WML", "RPM Spec", "Texinfo", "Turing", "SRecode Template", "AGS Script", "Darcs Patch", "AngelScript", "Glyph", "SQLPL", "KRL", "M4", "wisp", "Bison", "Nit", "CSS", "Dart", "XC", "HAProxy", "Mako", "YAML", "Csound Document", "Brainfuck", "Motorola 68K Assembly", "XML", "C", "Clojure", "KiCad Schematic", "GDB", "Moocode", "HTML", "Limbo", "Dogescript", "Opa", "LabVIEW", "Isabelle ROOT", "REALbasic", "Verilog", "Slice", "VCL", "Riot", "Awk", "Cabal Config", "UnrealScript", "D", "G-code", "WebIDL", "Sage", "XQuery", "F#", "Parrot", "XML Property List", "FIGlet Font", "Scheme", "Smalltalk", "Scilab", "Coq", "Cap'n Proto", "CartoCSS", "Eiffel", "Monkey", "HiveQL", "SCSS", "HLSL", "Pickle", "PureBasic", "ObjDump", "Linux Kernel Module", "Literate Haskell", "Shen", "Git Attributes", "LilyPond", "mIRC Script", "Ring", "Zephir", "LOLCODE", "OpenEdge ABL", "PLSQL", "JSONLD", "X BitMap", "COBOL", "Apollo Guidance Computer", "Gentoo Ebuild", "RHTML", "UrWeb", "Dylan", "J", "SPARQL", "GraphQL", "LoomScript", "Cython", "ECL", "ASN.1", "ANTLR", "Raku", "TypeScript", "XS", "Yacc", "Csound Score", "Jasmin", "Lasso", "1C Enterprise", "Hack", "Quake", "Rascal", "SystemVerilog", "TXL", "RDoc", "VBA", "Nearley", "Standard ML", "C-ObjDump", "Pure Data", "Formatted", "JSON", "CSON", "Ecere Projects", "Haskell", "LLVM", "Frege", "Ninja", "Protocol Buffer", "SSH Config", "Unified Parallel C", "Elixir", "ActionScript", "eC", "ATS", "Adobe Font Metrics", "Ballerina", "ChucK", "OpenCL", "Harbour", "MATLAB", "Parrot Assembly", "Rust", "nesC", "Tcl", "HTML+Django", "Alloy", "Lean", "GCC Machine Description", "ZenScript", "Common Workflow Language", "EML", "Cuda", "Jsonnet", "Svelte", "EQ", "Liquid", "ABNF", "Odin", "LTspice Symbol", "nanorc", "ObjectScript", "Shell", "Logos", "Nix", "PogoScript", "Creole", "Kit", "NetLinx+ERB", "Slash", "Gerber Image", "Erlang", "MQL5", "Visual Basic .NET", "C#", "edn", "MediaWiki", "Microsoft Developer Studio Project", "Eagle", "Ren'Py", "Sass", "Pascal", "Gentoo Eclass", "VBScript", "Wavefront Object", "XPages", "ApacheConf", "Rouge", "ABAP", "JavaScript", "ZIL", "V", "DIGITAL Command Language", "Arc", "JFlex", "BitBake", "OpenRC runscript", "Parrot Internal Representation", "Stan", "Vue", "XSLT", "SourcePawn", "YANG", "ooc", "Idris", "OCaml", "Asymptote", "Textile", "NL", "E", "PicoLisp", "HTML+Razor", "sed", "PLpgSQL", "Prolog", "Volt", "HTTP", "Oxygene", "TeX", "Wget Config", "MUF", "RenderScript", "NetLogo", "AsciiDoc", "Meson", "Mercury", "Python traceback", "Chapel", "Edje Data Collection", "Befunge", "Web Ontology Language", "JSON with Comments", "cURL Config", "ASP", "C++", "CoNLL-U", "Java Server Pages", "fish", "AutoIt", "Mirah", "MiniD", "Regular Expression", "ECLiPSe", "COLLADA", "F*", "XProc", "DNS Zone", "Mask", "Genie", "Jison", "Pawn", "SmPL", "Nemerle", "Tcsh", "World of Warcraft Addon Data", "Propeller Spin", "AspectJ", "Scaml", "ColdFusion", "ShaderLab", "SuperCollider", "HolyC", "Pod", "MLIR", "SQL", "Fancy", "Smarty", "Cpp-ObjDump", "INI", "HXML", "IGOR Pro", "Thrift", "KiCad Layout", "Rich Text Format", "EBNF", "RMarkdown", "Modula-3", "Genshi", "HTML+ECR", "Redcode", "Ceylon", "Easybuild", "Stylus", "dircolors", "Cirru", "Groovy", "Gettext Catalog", "NetLinx", "Marko", "Isabelle", "DataWeave", "SAS", "Alpine Abuild", "PHP", "GDScript", "GLSL", "Spline Font Database", "IDL", "Solidity", "APL", "HyPhy", "TSQL", "Muse", "Csound", "Gosu", "Prisma", "Scala", "CWeb", "JSX", "Jupyter Notebook"]

/-- `MAX_TOKEN_BYTES` from `src/detectors/classifier.rs`. -/
def MAX_TOKEN_BYTES : Nat := 32

/-- `DEFAULT_LOG_PROB` from `src/detectors/classifier.rs` (`-19f64`). -/
def DEFAULT_LOG_PROB : ℚ := -19

/-- The per-language token-table type: `phf::Map<&str, f64>` of
`TOKEN_LOG_PROBABILITIES[language]`. -/
abbrev TokenTable := String → Option ℚ

/-- The `TOKEN_LOG_PROBABILITIES` table type. -/
abbrev LogProbTable := String → Option TokenTable

/-- The fold inside `classify`: sum over the tokens of the content whose byte
length is at most `MAX_TOKEN_BYTES`, taking `token_map.get(token)` with the
default `DEFAULT_LOG_PROB` for tokens missing from the per-language table. -/
def tokenSum (token_map : TokenTable) (content : String) : ℚ :=
  ((tokenize content).filter
      (fun token => token.utf8ByteSize ≤ MAX_TOKEN_BYTES)).foldl
    (fun sum token => sum + ((token_map token).getD DEFAULT_LOG_PROB)) 0

/-- The score `classify` computes for one language: `⊥` (negative infinity)
for a language with no entry in `TOKEN_LOG_PROBABILITIES`, the token-sum
otherwise. -/
def scoreWith (table : LogProbTable) (content : String) (language : String) :
    WithBot ℚ :=
  match table language with
  | none => (⊥ : WithBot ℚ)
  | some token_map => (tokenSum token_map content : ℚ)

/-- A scored candidate, as `struct LanguageScore`. -/
structure LanguageScore where
  language : String
  score : WithBot ℚ
  deriving DecidableEq

/-- One step of a stable descending insertion sort on scores: `x` is placed
before the first element whose score is not larger, so that elements with
equal scores keep their original relative order — the defining property of
Rust's stable `sort_by` under the comparator
`b.score.partial_cmp(&a.score).unwrap_or(Equal)`. -/
def insertDesc (x : LanguageScore) : List LanguageScore → List LanguageScore
  | [] => [x]
  | y :: ys => if x.score < y.score then y :: insertDesc x ys else x :: y :: ys

/-- Stable descending sort by score.  Any two stable sorts agree on a linear
preorder, so this insertion sort is extensionally the `sort_by` call of
`classify`. -/
def sortByScoreDesc : List LanguageScore → List LanguageScore
  | [] => []
  | x :: xs => insertDesc x (sortByScoreDesc xs)

/-- Embedding of `classify` from `src/detectors/classifier.rs`.  `none`
models the panic of the `scored_candidates[0]` indexing on an empty scored
list (which never happens: see `classifyWith_isSome`). -/
def classifyWith (table : LogProbTable) (content : String)
    (candidates : List String) : Option String :=
  let candidates := if candidates.length = 0 then LANGUAGES else candidates
  let scored_candidates :=
    candidates.map (fun language =>
      { language := language, score := scoreWith table content language })
  (sortByScoreDesc scored_candidates).head?.map (fun s => s.language)

/-! ### Sorting lemmas -/

theorem insertDesc_length (x : LanguageScore) (l : List LanguageScore) :
    (insertDesc x l).length = l.length + 1 := by
  induction l with
  | nil => rfl
  | cons y ys ih =>
    rw [insertDesc]
    split
    · simp [ih]
    · simp

theorem sortByScoreDesc_length (l : List LanguageScore) :
    (sortByScoreDesc l).length = l.length := by
  induction l with
  | nil => rfl
  | cons x xs ih => rw [sortByScoreDesc, insertDesc_length, ih, List.length_cons]

theorem insertDesc_mem {a x : LanguageScore} {l : List LanguageScore} :
    a ∈ insertDesc x l ↔ a = x ∨ a ∈ l := by
  induction l with
  | nil => simp [insertDesc]
  | cons y ys ih =>
    rw [insertDesc]
    split
    · simp only [List.mem_cons, ih]
      tauto
    · simp only [List.mem_cons]

theorem sortByScoreDesc_mem {a : LanguageScore} {l : List LanguageScore} :
    a ∈ sortByScoreDesc l ↔ a ∈ l := by
  induction l with
  | nil => simp [sortByScoreDesc]
  | cons x xs ih =>
    rw [sortByScoreDesc, insertDesc_mem, ih, List.mem_cons]

/-- The head of the stable descending sort of a non-empty list is the first
element attaining the maximal score: the list splits as `pre ++ y :: post`
where every element of `pre` scores strictly below `y` and no element scores
above `y`. -/
theorem sortByScoreDesc_head (l : List LanguageScore) (hl : l ≠ []) :
    ∃ pre y post, l = pre ++ y :: post ∧
      (sortByScoreDesc l).head? = some y ∧
      (∀ z ∈ pre, z.score < y.score) ∧
      (∀ z ∈ l, z.score ≤ y.score) := by
  induction l with
  | nil => exact absurd rfl hl
  | cons x xs ih =>
    cases hxs : xs with
    | nil =>
      refine ⟨[], x, [], by simp, by simp [sortByScoreDesc, insertDesc], by simp, ?_⟩
      intro z hz
      simp only [List.mem_singleton] at hz
      exact le_of_eq (by rw [hz])
    | cons x' xs' =>
      obtain ⟨pre, y, post, hsplit, hhead, hpre, hmax⟩ := ih (by simp [hxs])
      rw [sortByScoreDesc]
      cases hsort : sortByScoreDesc xs with
      | nil =>
        exfalso
        have := sortByScoreDesc_length xs
        rw [hsort, hxs] at this
        simp at this
      | cons y0 t =>
        have hy0 : y0 = y := by
          rw [hsort] at hhead
          simpa using hhead
        subst hy0
        rw [← hxs, hsort]
        simp only [insertDesc]
        by_cases hcmp : x.score < y0.score
        · rw [if_pos hcmp]
          refine ⟨x :: pre, y0, post, by rw [List.cons_append, hsplit], by simp, ?_, ?_⟩
          · intro z hz
            rcases List.mem_cons.mp hz with hz | hz
            · rw [hz]; exact hcmp
            · exact hpre z hz
          · intro z hz
            rcases List.mem_cons.mp hz with hz | hz
            · rw [hz]; exact le_of_lt hcmp
            · exact hmax z hz
        · rw [if_neg hcmp]
          refine ⟨[], x, xs, by simp, by simp, by simp, ?_⟩
          intro z hz
          rcases List.mem_cons.mp hz with hz | hz
          · exact le_of_eq (by rw [hz])
          · exact le_trans (hmax z hz) (not_lt.mp hcmp)

/-- `LANGUAGES` is non-empty. -/
theorem LANGUAGES_ne_nil : LANGUAGES ≠ [] := by
  rw [LANGUAGES]
  exact List.cons_ne_nil _ _

/-- Shared helper: `classify` always returns the first candidate (of the
effective candidate list) whose score is maximal. -/
theorem classifyWith_first_argmax (table : LogProbTable) (content : String)
    (candidates : List String) :
    ∃ L pre post,
      classifyWith table content candidates = some L ∧
      (if candidates.length = 0 then LANGUAGES else candidates) =
        pre ++ L :: post ∧
      (∀ M ∈ pre, scoreWith table content M < scoreWith table content L) ∧
      (∀ M ∈ (if candidates.length = 0 then LANGUAGES else candidates),
        scoreWith table content M ≤ scoreWith table content L) := by
  set cands := if candidates.length = 0 then LANGUAGES else candidates with hcands
  have hne : cands ≠ [] := by
    rw [hcands]
    split
    · exact LANGUAGES_ne_nil
    · next h => exact fun hnil => h (by rw [hnil]; rfl)
  set f : String → LanguageScore :=
    fun language => { language := language, score := scoreWith table content language }
    with hf
  have hmapne : cands.map f ≠ [] := by
    intro h
    exact hne (List.map_eq_nil_iff.mp h)
  obtain ⟨pre', y, post', hsplit, hhead, hpre', hmax'⟩ :=
    sortByScoreDesc_head (cands.map f) hmapne
  obtain ⟨pre, rest, hcandseq, hpre_map, hrest_map⟩ :=
    List.map_eq_append_iff.mp hsplit
  obtain ⟨L, post, hrest_eq, hL, hpost_map⟩ :=
    List.map_eq_cons_iff.mp hrest_map
  refine ⟨L, pre, post, ?_, ?_, ?_, ?_⟩
  · rw [classifyWith]
    simp only [← hcands, ← hf]
    rw [hhead, ← hL]
    rfl
  · rw [hcandseq, hrest_eq]
  · intro M hM
    have : f M ∈ pre' := by
      rw [← hpre_map]
      exact List.mem_map_of_mem f hM
    have hlt := hpre' (f M) this
    rw [← hL] at hlt
    exact hlt
  · intro M hM
    have : f M ∈ cands.map f := List.mem_map_of_mem f hM
    have hle := hmax' (f M) this
    rw [← hL] at hle
    exact hle

/-! ## C2 -/

/-- **C2.** For non-empty candidates `S` the classifier scores a language
with no table entry as `⊥` (negative infinity) and any other language as the
sum, over the content's tokens of byte length at most 32, of its stored
log-probability with default `-19`; the stable descending sort then makes
the returned language the first element of `S` attaining the maximal score:
`S` splits as `pre ++ L :: post` with every member of `pre` scoring strictly
below `L` and no member of `S` scoring above `L`. -/
theorem classify_scores_and_sorts (table : LogProbTable) (content : String)
    (S : List String) (hS : S ≠ []) :
    (∀ L, table L = none → scoreWith table content L = (⊥ : WithBot ℚ)) ∧
    (∀ L m, table L = some m →
      scoreWith table content L =
        ((((tokenize content).filter
              (fun token => token.utf8ByteSize ≤ MAX_TOKEN_BYTES)).foldl
            (fun sum token => sum + ((m token).getD DEFAULT_LOG_PROB)) 0 : ℚ) :
          WithBot ℚ)) ∧
    ∃ L pre post,
      classifyWith table content S = some L ∧
      S = pre ++ L :: post ∧
      (∀ M ∈ pre, scoreWith table content M < scoreWith table content L) ∧
      (∀ M ∈ S, scoreWith table content M ≤ scoreWith table content L) := by
  refine ⟨fun L h => by simp [scoreWith, h],
    fun L m h => by simp [scoreWith, h, tokenSum], ?_⟩
  have hlen : ¬ S.length = 0 := by
    simpa [List.length_eq_zero] using hS
  obtain ⟨L, pre, post, h1, h2, h3, h4⟩ :=
    classifyWith_first_argmax table content S
  rw [if_neg hlen] at h2 h4
  exact ⟨L, pre, post, h1, h2, h3, h4⟩

/-- A small concrete log-probability table for the classifier witnesses:
language `"A"` knows token `"x"` with log-probability `-1`, language `"B"`
has an (empty) table entry, and no other language has training data. -/
def tableW : LogProbTable := fun l =>
  if l = "A" then some (fun t => if t = "x" then some (-1) else none)
  else if l = "B" then some (fun _ => none)
  else none

/-- Witness for C2 at a concrete table, content, and candidate set. -/
theorem classify_scores_and_sorts_witness :
    (∀ L, tableW L = none → scoreWith tableW "x" L = (⊥ : WithBot ℚ)) ∧
    (∀ L m, tableW L = some m →
      scoreWith tableW "x" L =
        ((((tokenize "x").filter
              (fun token => token.utf8ByteSize ≤ MAX_TOKEN_BYTES)).foldl
            (fun sum token => sum + ((m token).getD DEFAULT_LOG_PROB)) 0 : ℚ) :
          WithBot ℚ)) ∧
    ∃ L pre post,
      classifyWith tableW "x" ["B", "A"] = some L ∧
      ["B", "A"] = pre ++ L :: post ∧
      (∀ M ∈ pre, scoreWith tableW "x" M < scoreWith tableW "x" L) ∧
      (∀ M ∈ ["B", "A"], scoreWith tableW "x" M ≤ scoreWith tableW "x" L) :=
  classify_scores_and_sorts tableW "x" ["B", "A"] (by decide)

/-! ## C9 -/

/-- **C9.** The classifier always succeeds: it returns some language, a
member of the candidate set when that set is non-empty, and a member of the
full `LANGUAGES` universe when the candidate set is empty. -/
theorem classify_result_mem (table : LogProbTable) (content : String)
    (S : List String) :
    ∃ L, classifyWith table content S = some L ∧
      L ∈ (if S.isEmpty then LANGUAGES else S) := by
  obtain ⟨L, pre, post, h1, h2, _, _⟩ :=
    classifyWith_first_argmax table content S
  refine ⟨L, h1, ?_⟩
  have hmem : L ∈ (if S.length = 0 then LANGUAGES else S) := by
    rw [h2]
    exact List.mem_append_right _ (List.mem_cons_self _ _)
  cases S with
  | nil => simpa using hmem
  | cons a t => simpa using hmem

/-! ## C4 -/

/-- A table in which language `"C"` has an entry whose token map is empty,
so every token of at most 32 bytes contributes exactly the smoothing floor
`DEFAULT_LOG_PROB = -19`. -/
def tableSmoothOnly : LogProbTable := fun l =>
  if l = "C" then some (fun _ => none) else none

/-- Counterexample to C4: a content that is a single numeric literal does
change a language's score (by the smoothing floor `-19`), because the
classifier's logos tokenizer has no notion of numeric literals, comments, or
strings — `"123"` lexes to the token `"123"`, which is scored. -/
theorem classifier_scores_numeric_literal :
    scoreWith tableSmoothOnly "123" "C" ≠ scoreWith tableSmoothOnly "" "C" := by
  have h1 : (tokenize "123").filter
      (fun token => token.utf8ByteSize ≤ MAX_TOKEN_BYTES) = ["123"] := by decide
  have h2 : (tokenize "").filter
      (fun token => token.utf8ByteSize ≤ MAX_TOKEN_BYTES) = ([] : List String) := by
    decide
  simp only [scoreWith, tableSmoothOnly, if_pos rfl, tokenSum, h1, h2,
    List.foldl_cons, List.foldl_nil, Option.getD_none, DEFAULT_LOG_PROB]
  norm_num

/-- **C4 (amended).** The token sequence the classifier sums over is the
full logos token stream of the content — every `[A-Za-z0-9_]+` run and every
single non-word, non-whitespace character — so the characters of comments,
string-literal bodies, and numeric literals are tokenized like any other
text and do contribute to the scores (their stored log-probability, or the
`-19` default). -/
theorem classifier_token_stream (m : TokenTable) :
    tokenize "123" = ["123"] ∧
    tokenize "// hello" = ["/", "/", "hello"] ∧
    tokenize "\"abc\"" = ["\"", "abc", "\""] ∧
    tokenSum m "123" = (m "123").getD DEFAULT_LOG_PROB ∧
    tokenSum m "// x" =
      (m "/").getD DEFAULT_LOG_PROB + (m "/").getD DEFAULT_LOG_PROB +
        (m "x").getD DEFAULT_LOG_PROB := by
  refine ⟨by decide, by decide, by decide, ?_, ?_⟩
  · have h : (tokenize "123").filter
        (fun token => token.utf8ByteSize ≤ MAX_TOKEN_BYTES) = ["123"] := by
      decide
    rw [tokenSum, h]
    simp
  · have h : (tokenize "// x").filter
        (fun token => token.utf8ByteSize ≤ MAX_TOKEN_BYTES) = ["/", "/", "x"] := by
      decide
    rw [tokenSum, h]
    simp [add_assoc]

/-! ## `src/src/detectors/extensions.rs`

The generated table `EXTENSIONS : phf::Map<&str, &[&str]>` is a build-time
input.  `get_languages_from_extension` takes it as the lookup `exts`;
`get_extension` only tests key membership (`EXTENSIONS.get_key` returns the
interned key, which is string-equal to the probe), so it takes the
characteristic function `isKey`. -/

/-- Embedding of `get_languages_from_extension`: table lookup with `[]` for
a missing extension. -/
def get_languages_from_extension (exts : String → Option (List String))
    (extension : String) : List String :=
  match exts extension with
  | some languages => languages
  | none => []

/-- The basename as `get_extension` normalises it: a single leading `.`
stripped, then ASCII-lowercased. -/
def lowerBasename (filename : String) : String :=
  let stripped :=
    match filename.data with
    | '.' :: rest => rest
    | l => l
  String.mk (stripped.map rToAsciiLower)

/-- The scan of `get_extension`: walk the characters left to right; at every
`.` probe the suffix starting there and return the first registered one
(leftmost dot, hence the longest registered suffix). -/
def findExtKey (isKey : String → Bool) : List Char → Option String
  | [] => none
  | c :: cs =>
    if c = '.' && isKey (String.mk (c :: cs)) then some (String.mk (c :: cs))
    else findExtKey isKey cs

/-- Embedding of `get_extension` from `src/detectors/extensions.rs`. -/
def get_extension (isKey : String → Bool) (filename : String) : Option String :=
  findExtKey isKey (lowerBasename filename).data

/-- Soundness and maximality of the `findExtKey` scan. -/
theorem findExtKey_spec (isKey : String → Bool) (l : List Char) :
    (∀ s, findExtKey isKey l = some s →
      s.data <:+ l ∧ s.data.head? = some '.' ∧ isKey s = true ∧
        ∀ t : List Char, t <:+ l → t.head? = some '.' →
          isKey (String.mk t) = true → t.length ≤ s.data.length) ∧
    (findExtKey isKey l = none →
      ∀ t : List Char, t <:+ l → t.head? = some '.' →
        isKey (String.mk t) = true → False) := by
  induction l with
  | nil =>
    constructor
    · intro s hs
      simp [findExtKey] at hs
    · intro _ t ht h1 _
      rw [List.suffix_nil] at ht
      rw [ht] at h1
      simp at h1
  | cons c cs ih =>
    constructor
    · intro s hs
      rw [findExtKey] at hs
      split at hs
      · next hcond =>
        injection hs with hs
        subst hs
        have hc : c = '.' := by
          have := (Bool.and_eq_true _ _).mp hcond |>.1
          exact decide_eq_true_eq.mp this
        have hkey : isKey (String.mk (c :: cs)) = true :=
          (Bool.and_eq_true _ _).mp hcond |>.2
        exact ⟨List.suffix_refl _, by simp [hc], hkey,
          fun t ht _ _ => List.IsSuffix.length_le ht⟩
      · next hcond =>
        obtain ⟨hsuf, hhead, hkey, hmax⟩ := ih.1 s hs
        refine ⟨hsuf.trans (List.suffix_cons c cs), hhead, hkey, ?_⟩
        intro t ht ht1 ht2
        rcases List.suffix_cons_iff.mp ht with ht | ht
        · exfalso
          rw [ht] at ht1
          simp only [List.head?_cons, Option.some_inj] at ht1
          rw [ht] at ht2
          rw [ht1] at ht2
          exact hcond (by simp [ht1, ht2])
        · exact hmax t ht ht1 ht2
    · intro hnone t ht ht1 ht2
      rw [findExtKey] at hnone
      split at hnone
      · exact Option.noConfusion hnone
      · next hcond =>
        rcases List.suffix_cons_iff.mp ht with ht | ht
        · rw [ht] at ht1
          simp only [List.head?_cons, Option.some_inj] at ht1
          rw [ht] at ht2
          rw [ht1] at ht2
          exact hcond (by simp [ht1, ht2])
        · exact ih.2 hnone t ht ht1 ht2

/-! ## C5 -/

/-- **C5.** Extension lookup strips a single leading dot, ASCII-lowercases
the rest, and returns the longest registered dotted suffix: a returned
suffix starts with `.`, is registered, is a suffix of the normalised name,
and is at least as long as every registered dotted suffix; when no dotted
suffix is registered the lookup returns nothing. -/
theorem get_extension_spec (isKey : String → Bool) (filename : String) :
    (∀ s, get_extension isKey filename = some s →
      s.data <:+ (lowerBasename filename).data ∧ s.data.head? = some '.' ∧
        isKey s = true ∧
        ∀ t : String, t.data <:+ (lowerBasename filename).data →
          t.data.head? = some '.' → isKey t = true → t.length ≤ s.length) ∧
    (get_extension isKey filename = none →
      ∀ t : String, t.data <:+ (lowerBasename filename).data →
        t.data.head? = some '.' → isKey t = true → False) := by
  constructor
  · intro s hs
    obtain ⟨h1, h2, h3, h4⟩ := (findExtKey_spec isKey _).1 s hs
    exact ⟨h1, h2, h3, fun t ht1 ht2 ht3 => h4 t.data ht1 ht2 ht3⟩
  · intro hnone t ht1 ht2 ht3
    exact (findExtKey_spec isKey _).2 hnone t.data ht1 ht2 ht3

/-- A concrete registered-suffix set for the C5 witness. -/
def extKeysW : String → Bool := fun s => s == ".cmake.in" || s == ".in"

/-- Witness for C5: `example.cmake.in` resolves to the longer suffix
`.cmake.in` (not `.in`), the theorem's maximality conclusion instantiated at
`.in`; and when the longer dotted suffixes are unregistered the lookup falls
back to the shorter `.in`. -/
theorem get_extension_spec_witness :
    (get_extension extKeysW "example.cmake.in" = some ".cmake.in") ∧
    (".in" : String).length ≤ (".cmake.in" : String).length ∧
    (get_extension extKeysW "EXAMPLE.NOTREAL.IN" = some ".in") ∧
    (get_extension extKeysW "noextension" = none) :=
  ⟨by decide,
    ((get_extension_spec extKeysW "example.cmake.in").1 ".cmake.in"
          (by decide)).2.2.2 ".in" (by decide) (by decide) (by decide),
    by decide, by decide⟩

/-! ## `src/src/detectors/interpreters.rs`

The generated table `INTERPRETERS : phf::Map<&str, &[&str]>` is the
`interps` parameter.  The PCRE capture of the `sh`-shebang hack
(`exec (\w+).+\$0.+\$@` over the next four lines) is the `execCapture`
oracle: it maps the joined extra content to the captured word, `none` when
the regex does not match. -/

/-- Rust `BufRead::lines` on the full file content: split at `\n`, dropping
the line terminator and a `\r` directly before it; a last line without a
terminator is yielded as is; empty input yields no lines.  `acc` is the
current line, reversed. -/
def rustLinesGo (acc : List Char) : List Char → List (List Char)
  | [] => if acc.isEmpty then [] else [acc.reverse]
  | c :: cs =>
    if c = '\n' then
      (match acc with
        | '\r' :: t => t.reverse
        | t => t.reverse) :: rustLinesGo [] cs
    else rustLinesGo (c :: acc) cs

/-- The lines of a string, as `BufRead::lines` yields them. -/
def rustLines (s : String) : List (List Char) := rustLinesGo [] s.data

/-- Rust `str::split_whitespace`: the maximal non-whitespace runs.  `acc` is
the current word, reversed. -/
def splitWsGo (acc : List Char) : List Char → List (List Char)
  | [] => if acc.isEmpty then [] else [acc.reverse]
  | c :: cs =>
    if rIsWhitespace c then
      (if acc.isEmpty then [] else [acc.reverse]) ++ splitWsGo [] cs
    else splitWsGo (c :: acc) cs

/-- `shebang_line.split('/').last()`: the segment after the last `/` (the
whole line when it has no `/`). -/
def afterLastSlashGo (cur : List Char) : List Char → List Char
  | [] => cur.reverse
  | c :: cs => if c = '/' then afterLastSlashGo [] cs else afterLastSlashGo (c :: cur) cs

/-- The interpreter basename part of a shebang line. -/
def afterLastSlash (l : List Char) : List Char := afterLastSlashGo [] l

/-- The minor-version strip of `get_languages_from_shebang`:
`Regex::new("[0-9]\.[0-9]").split(interpreter).next().unwrap()`, i.e. the
prefix of the interpreter before the leftmost match of `[0-9]\.[0-9]`.  Note
that the leading digit of a version such as `2.7` is part of the match, so
it is *not* part of the returned prefix. -/
def stripMinorVersion : List Char → List Char
  | a :: b :: c :: rest =>
    if rIsDigit a && b = '.' && rIsDigit c then []
    else a :: stripMinorVersion (b :: c :: rest)
  | l => l

/-- Embedding of `get_languages_from_shebang` from
`src/detectors/interpreters.rs`. -/
def get_languages_from_shebang (interps : String → Option (List String))
    (execCapture : String → Option String) (content : String) : List String :=
  match rustLines content with
  | [] => []
  | shebang_line :: rest =>
    if !(['#', '!'].isPrefixOf shebang_line) then []
    else
      let interpreter_line := afterLastSlash shebang_line
      let interp? : Option (List Char) :=
        match splitWsGo [] interpreter_line with
        | [] => none
        | w :: ws =>
          if w = "env".data then ws.head?
          else if w = "sh".data then
            let extra_content := List.intercalate ['\n'] (rest.take 4)
            some
              (((execCapture (String.mk extra_content)).map
                  (fun s => s.data)).getD "sh".data)
          else some w
      match interp? with
      | none => []
      | some interpreter =>
        match interps (String.mk (stripMinorVersion interpreter)) with
        | some languages => languages
        | none => []

/-! ## C3 -/

/-- An `INTERPRETERS` fragment mapping `python2` (the key the claim and the
code's own comment expect) to Python. -/
def interpsPython2 : String → Option (List String) := fun s =>
  if s = "python2" then some ["Python"] else none

/-- An `INTERPRETERS` fragment mapping `python` (the key actually probed)
to Python. -/
def interpsPython : String → Option (List String) := fun s =>
  if s = "python" then some ["Python"] else none

/-- **C3 (code bug).** Splitting on `[0-9]\.[0-9]` consumes the major-version
digit: `python2.7` and `python2.7.3` are both looked up as `python`, not
`python2` — the shebang `#!/usr/bin/python2.7` misses a table keyed
`python2` and hits one keyed `python`, contradicting the code's own comment
`#!/usr/bin/python2.6.3 -> #!/usr/bin/python2`. -/
theorem shebang_minor_version_strip_bug :
    String.mk (stripMinorVersion "python2.7".data) = "python" ∧
    String.mk (stripMinorVersion "python2.7.3".data) = "python" ∧
    get_languages_from_shebang interpsPython2 (fun _ => none)
      "#!/usr/bin/python2.7" = [] ∧
    get_languages_from_shebang interpsPython (fun _ => none)
      "#!/usr/bin/python2.7" = ["Python"] := by
  refine ⟨by decide, by decide, by decide, by decide⟩

/-! ## `src/src/heuristics.rs`

The generated table `DISAMBIGUATIONS : phf::Map<&str, &[Rule]>` is the
`disamb` parameter.  PCRE matching (`crlf(true).multi_line(true)`, over the
content bytes) is the `isMatch` oracle: `isMatch pat content` is the result
of `regex.is_match(content)`, `none` modelling a pcre2 runtime error, whose
`unwrap_or` defaults from the source are applied here. -/

/-- The `Pattern` enum of `src/heuristics.rs`. -/
inductive Pattern where
  | positive (pat : String)
  | negative (pat : String)
  | orP (pats : List Pattern)
  | andP (pats : List Pattern)

mutual

/-- `Pattern::matches`: positive patterns default a failed match call to
`false`, negative ones negate a default of `true`, `Or` is `any`, `And` is
`all`. -/
def Pattern.matchesWith (isMatch : String → String → Option Bool)
    (content : String) : Pattern → Bool
  | .positive pat => (isMatch pat content).getD false
  | .negative pat => !((isMatch pat content).getD true)
  | .orP pats => Pattern.anyMatches isMatch content pats
  | .andP pats => Pattern.allMatches isMatch content pats

/-- `patterns.iter().any(|pattern| pattern.matches(content))`. -/
def Pattern.anyMatches (isMatch : String → String → Option Bool)
    (content : String) : List Pattern → Bool
  | [] => false
  | p :: ps =>
    p.matchesWith isMatch content || Pattern.anyMatches isMatch content ps

/-- `patterns.iter().all(|pattern| pattern.matches(content))`. -/
def Pattern.allMatches (isMatch : String → String → Option Bool)
    (content : String) : List Pattern → Bool
  | [] => true
  | p :: ps =>
    p.matchesWith isMatch content && Pattern.allMatches isMatch content ps

end

/-- The `Rule` struct of `src/heuristics.rs`. -/
structure Rule where
  languages : List String
  pattern : Option Pattern

/-- Whether a rule fires on the content: its pattern matches, or it has no
pattern (`// if there is no pattern then it is a match by default`). -/
def ruleMatches (isMatch : String → String → Option Bool) (content : String)
    (rule : Rule) : Bool :=
  match rule.pattern with
  | some pattern => pattern.matchesWith isMatch content
  | none => true

/-- The `for rule in rules` loop of `get_languages`: the languages of the
first rule that fires, `[]` when none does. -/
def walkRules (isMatch : String → String → Option Bool) (content : String) :
    List Rule → List String
  | [] => []
  | rule :: rest =>
    if ruleMatches isMatch content rule then rule.languages
    else walkRules isMatch content rest

/-- Embedding of `get_languages` from `src/heuristics.rs`: look up the rule
list of the extension, keep the rules whose languages all occur among the
candidates, and walk them in order. -/
def get_languages (isMatch : String → String → Option Bool)
    (disamb : String → Option (List Rule)) (extension : String)
    (candidates : List String) (content : String) : List String :=
  match disamb extension with
  | some rules =>
    walkRules isMatch content
      (rules.filter (fun rule =>
        rule.languages.all (fun language => candidates.contains language)))
  | none => []

/-- First-match characterization of `walkRules`. -/
theorem walkRules_spec (isMatch : String → String → Option Bool)
    (content : String) (rules : List Rule) :
    (walkRules isMatch content rules = [] ∧
      ∀ r ∈ rules, ruleMatches isMatch content r = false) ∨
    (∃ pre r post, rules = pre ++ r :: post ∧
      ruleMatches isMatch content r = true ∧
      (∀ r' ∈ pre, ruleMatches isMatch content r' = false) ∧
      walkRules isMatch content rules = r.languages) := by
  induction rules with
  | nil => exact Or.inl ⟨rfl, by simp⟩
  | cons rule rest ih =>
    by_cases h : ruleMatches isMatch content rule = true
    · refine Or.inr ⟨[], rule, rest, by simp, h, by simp, ?_⟩
      rw [walkRules, if_pos h]
    · have hwalk : walkRules isMatch content (rule :: rest) =
          walkRules isMatch content rest := by
        rw [walkRules, if_neg h]
      rcases ih with ⟨h1, h2⟩ | ⟨pre, r, post, hsplit, hr, hpre, hres⟩
      · refine Or.inl ⟨by rw [hwalk, h1], ?_⟩
        intro r hrmem
        rcases List.mem_cons.mp hrmem with hrmem | hrmem
        · rw [hrmem]
          exact Bool.not_eq_true _ ▸ (by simpa using h)
        · exact h2 r hrmem
      · refine Or.inr ⟨rule :: pre, r, post, by rw [List.cons_append, hsplit],
          hr, ?_, by rw [hwalk, hres]⟩
        intro r' hr'
        rcases List.mem_cons.mp hr' with hr' | hr'
        · rw [hr']
          exact Bool.not_eq_true _ ▸ (by simpa using h)
        · exact hpre r' hr'

/-! ## C7 -/

/-- **C7.** The heuristic resolver keeps only the rules of the extension
whose language list is contained in the candidate set, walks them in order,
and returns the languages of the first rule that fires (a missing pattern
fires unconditionally); a missing rule list, or no retained rule firing,
yields `[]`.  The returned languages are a subset of the candidates. -/
theorem heuristics_get_languages_spec (isMatch : String → String → Option Bool)
    (disamb : String → Option (List Rule)) (extension : String)
    (candidates : List String) (content : String) :
    (disamb extension = none →
      get_languages isMatch disamb extension candidates content = []) ∧
    (∀ rules, disamb extension = some rules →
      ∀ kept, kept = rules.filter (fun rule =>
          rule.languages.all (fun language => candidates.contains language)) →
      ((get_languages isMatch disamb extension candidates content = [] ∧
          ∀ r ∈ kept, ruleMatches isMatch content r = false) ∨
        (∃ pre r post, kept = pre ++ r :: post ∧
          ruleMatches isMatch content r = true ∧
          (∀ r' ∈ pre, ruleMatches isMatch content r' = false) ∧
          get_languages isMatch disamb extension candidates content =
            r.languages ∧
          ∀ language ∈ r.languages, language ∈ candidates))) := by
  constructor
  · intro h
    rw [get_languages, h]
  · intro rules hrules kept hkept
    have hgl : get_languages isMatch disamb extension candidates content =
        walkRules isMatch content kept := by
      rw [get_languages, hrules, hkept]
    rcases walkRules_spec isMatch content kept with ⟨h1, h2⟩ |
      ⟨pre, r, post, hsplit, hr, hpre, hres⟩
    · exact Or.inl ⟨by rw [hgl, h1], h2⟩
    · refine Or.inr ⟨pre, r, post, hsplit, hr, hpre, by rw [hgl, hres], ?_⟩
      intro language hlang
      have hrkept : r ∈ kept := by
        rw [hsplit]
        exact List.mem_append_right _ (List.mem_cons_self _ _)
      rw [hkept] at hrkept
      have := List.of_mem_filter hrkept
      have hall := List.all_eq_true.mp this
      simpa using hall language hlang

/-- A concrete disambiguation rule list for the C7 witness, modelled on the
`.es` rules: JavaScript behind a positive pattern, Erlang as the default. -/
def rulesW : List Rule :=
  [{ languages := ["JavaScript"], pattern := some (Pattern.positive "use strict") },
   { languages := ["Erlang"], pattern := none }]

/-- A concrete `DISAMBIGUATIONS` fragment for the C7 witness. -/
def disambW : String → Option (List Rule) := fun e =>
  if e = ".es" then some rulesW else none

/-- A concrete regex oracle for the C7 witness. -/
def isMatchW : String → String → Option Bool := fun pat content =>
  some (pat == "use strict" && content == "'use strict';")

/-- Witness for C7 at a concrete extension, rule table, candidate set, and
content. -/
theorem heuristics_get_languages_spec_witness :
    (get_languages isMatchW disambW ".es" ["Erlang", "JavaScript"]
        "'use strict';" = [] ∧
      ∀ r ∈ rulesW, ruleMatches isMatchW "'use strict';" r = false) ∨
    (∃ pre r post, rulesW = pre ++ r :: post ∧
      ruleMatches isMatchW "'use strict';" r = true ∧
      (∀ r' ∈ pre, ruleMatches isMatchW "'use strict';" r' = false) ∧
      get_languages isMatchW disambW ".es" ["Erlang", "JavaScript"]
          "'use strict';" = r.languages ∧
      ∀ language ∈ r.languages, language ∈ ["Erlang", "JavaScript"]) :=
  (heuristics_get_languages_spec isMatchW disambW ".es"
      ["Erlang", "JavaScript"] "'use strict';").2 rulesW rfl rulesW rfl

/-! ## `src/src/lib.rs`: `detect`

`detect` takes a path; only its basename matters.  `Path::file_name()` can
be absent (a path ending in `..`), and the basename can fail UTF-8
conversion (`to_str`), so the path is modelled by the
`Option (Option String)` result of those two steps.  File I/O is the
`Except Unit String` oracle: `.ok content` means opening and both reads
succeed and yield `content`, `.error ()` means the I/O fails. -/

/-- The `Detection` enum of `src/lib.rs`. -/
inductive Detection where
  | filename (language : String)
  | extension (language : String)
  | shebang (language : String)
  | heuristics (language : String)
  | classifier (language : String)
  deriving DecidableEq

/-- `MAX_CONTENT_SIZE_BYTES` from `src/lib.rs`. -/
def MAX_CONTENT_SIZE_BYTES : Nat := 51200

/-- Character-level form of `truncate_to_char_boundary`: keep the longest
prefix of whole characters of UTF-8 byte length at most `max` (the source
walks a byte cut backwards to the previous character boundary, which yields
exactly this prefix). -/
def truncGo (max used : Nat) : List Char → List Char
  | [] => []
  | c :: cs =>
    if used + c.utf8Size ≤ max then c :: truncGo max (used + c.utf8Size) cs
    else []

/-- Embedding of `truncate_to_char_boundary` from `src/lib.rs`. -/
def truncate_to_char_boundary (s : String) (max : Nat) : String :=
  String.mk (truncGo max 0 s.data)

/-- The knowledge-base tables and regex oracles `detect` consults.  All five
tables are generated at build time; PCRE matching is the `isMatch` /
`execCapture` oracles (cf. `Pattern.matchesWith`,
`get_languages_from_shebang`). -/
structure DetectCtx where
  filenames : String → Option String
  extensions : String → Option (List String)
  interpreters : String → Option (List String)
  disamb : String → Option (List Rule)
  tokenLogProbs : LogProbTable
  isMatch : String → String → Option Bool
  execCapture : String → Option String

/-- The extension-stage candidates of `detect`: languages of the longest
registered dotted suffix of the basename, `[]` when there is no basename or
no registered suffix. -/
def extCandidates (T : DetectCtx) (filename? : Option String) : List String :=
  let extension := filename?.bind
    (get_extension (fun s => (T.extensions s).isSome))
  (extension.map (fun ext => get_languages_from_extension T.extensions ext)).getD []

/-- The candidate set after the shebang stage of `detect`. -/
def shebangFiltered (T : DetectCtx) (filename? : Option String)
    (content : String) : List String :=
  filter_candidates (extCandidates T filename?)
    (get_languages_from_shebang T.interpreters T.execCapture content)

/-- The candidate set after the heuristics stage of `detect`: heuristics run
only when more than one candidate survives and the basename has a registered
extension, over the content truncated to `MAX_CONTENT_SIZE_BYTES`. -/
def heuristicsFiltered (T : DetectCtx) (filename? : Option String)
    (content : String) : List String :=
  let extension := filename?.bind
    (get_extension (fun s => (T.extensions s).isSome))
  let candidates := shebangFiltered T filename? content
  let content := truncate_to_char_boundary content MAX_CONTENT_SIZE_BYTES
  if candidates.length > 1 then
    match extension with
    | some extension =>
      filter_candidates candidates
        (get_languages T.isMatch T.disamb extension candidates content)
    | none => candidates
  else candidates

/-- Embedding of `detect` from `src/lib.rs`.  The `.getD ""` in the
classifier arm models the infallible `classify` call (its result is always
`some`, cf. `classifyWith_first_argmax`). -/
def detect (T : DetectCtx) (fileNameRes : Option (Option String))
    (file : Except Unit String) : Except Unit (Option Detection) :=
  match fileNameRes with
  | none => .ok none
  | some filename? =>
    match filename?.bind (fun filename => T.filenames filename) with
    | some candidate => .ok (some (.filename candidate))
    | none =>
      let candidates := extCandidates T filename?
      if candidates.length = 1 then .ok (some (.extension candidates.head!))
      else
        match file with
        | .error e => .error e
        | .ok content =>
          let candidates := shebangFiltered T filename? content
          if candidates.length = 1 then .ok (some (.shebang candidates.head!))
          else
            let candidates := heuristicsFiltered T filename? content
            match candidates with
            | [] => .ok none
            | [language] => .ok (some (.heuristics language))
            | _ =>
              .ok (some (.classifier
                ((classifyWith T.tokenLogProbs
                    (truncate_to_char_boundary content MAX_CONTENT_SIZE_BYTES)
                    candidates).getD "")))

/-! ## C1 -/

/-- **C1.** `detect` applies the strategies in the order Filename,
Extension, Shebang, Heuristics, Classifier and short-circuits: a basename
that is a key of `FILENAMES` yields `Filename(L)` for every file oracle
(i.e. no later stage and no I/O); otherwise a one-language extension
candidate list yields `Extension(L)` for every file oracle; otherwise, with
readable content, exactly one candidate surviving the shebang intersection
yields `Shebang(L)`; otherwise zero candidates after the heuristics stage
yield `Ok(None)`, exactly one yields `Heuristics(L)`, and more than one
yields `Classifier` of the classifier's choice over the surviving
candidates. -/
theorem detect_pipeline_spec (T : DetectCtx) (filename? : Option String) :
    (∀ filename L, filename? = some filename →
      T.filenames filename = some L →
      ∀ file, detect T (some filename?) file = .ok (some (.filename L))) ∧
    (filename?.bind (fun filename => T.filenames filename) = none →
      ∀ L, extCandidates T filename? = [L] →
        ∀ file, detect T (some filename?) file = .ok (some (.extension L))) ∧
    (filename?.bind (fun filename => T.filenames filename) = none →
      (extCandidates T filename?).length ≠ 1 →
      ∀ content L, shebangFiltered T filename? content = [L] →
        detect T (some filename?) (.ok content) = .ok (some (.shebang L))) ∧
    (∀ content,
      filename?.bind (fun filename => T.filenames filename) = none →
      (extCandidates T filename?).length ≠ 1 →
      (shebangFiltered T filename? content).length ≠ 1 →
      (heuristicsFiltered T filename? content = [] →
        detect T (some filename?) (.ok content) = .ok none) ∧
      (∀ L, heuristicsFiltered T filename? content = [L] →
        detect T (some filename?) (.ok content) = .ok (some (.heuristics L))) ∧
      (∀ L₁ L₂ rest, heuristicsFiltered T filename? content = L₁ :: L₂ :: rest →
        ∃ L, classifyWith T.tokenLogProbs
            (truncate_to_char_boundary content MAX_CONTENT_SIZE_BYTES)
            (L₁ :: L₂ :: rest) = some L ∧
          detect T (some filename?) (.ok content) =
            .ok (some (.classifier L)))) := by
  refine ⟨?_, ?_, ?_, ?_⟩
  · intro filename L h1 h2 file
    simp [detect.eq_def, h1, h2]
  · intro h1 L h2 file
    simp [detect.eq_def, h1, h2]
  · intro h1 h2 content L h3
    simp [detect.eq_def, h1, h2, h3]
  · intro content h1 h2 h3
    refine ⟨?_, ?_, ?_⟩
    · intro h4
      simp [detect.eq_def, h1, h2, h3, h4]
    · intro L h4
      simp [detect.eq_def, h1, h2, h3, h4]
    · intro L₁ L₂ rest h4
      obtain ⟨L, pre, post, hcl, -, -, -⟩ :=
        classifyWith_first_argmax T.tokenLogProbs
          (truncate_to_char_boundary content MAX_CONTENT_SIZE_BYTES)
          (L₁ :: L₂ :: rest)
      refine ⟨L, hcl, ?_⟩
      simp [detect.eq_def, h1, h2, h3, h4, hcl]

/-- A concrete knowledge base exercising every stage of the pipeline for the
C1 witness. -/
def ctxW : DetectCtx where
  filenames := fun s => if s = "APKBUILD" then some "Alpine Abuild" else none
  extensions := fun s =>
    if s = ".purs" then some ["PureScript"]
    else if s = ".es" then some ["Erlang", "JavaScript"]
    else if s = ".xy" then some ["A", "B"]
    else none
  interpreters := interpsPython
  disamb := disambW
  tokenLogProbs := tableW
  isMatch := isMatchW
  execCapture := fun _ => none

/-- Witness for C1: each stage of the cascade observed at concrete inputs —
the filename and extension stages decide without consulting the file (the
oracle is the failing one), the shebang, heuristics, none, and classifier
outcomes follow on concrete contents. -/
theorem detect_pipeline_spec_witness :
    detect ctxW (some (some "APKBUILD")) (.error ()) =
      .ok (some (.filename "Alpine Abuild")) ∧
    detect ctxW (some (some "pizza.purs")) (.error ()) =
      .ok (some (.extension "PureScript")) ∧
    detect ctxW (some (some "script")) (.ok "#!/usr/bin/python") =
      .ok (some (.shebang "Python")) ∧
    detect ctxW (some (some "a.es")) (.ok "'use strict';") =
      .ok (some (.heuristics "JavaScript")) ∧
    detect ctxW (some (some "y")) (.ok "hello") = .ok none ∧
    (∃ L, classifyWith ctxW.tokenLogProbs
        (truncate_to_char_boundary "x" MAX_CONTENT_SIZE_BYTES) ["A", "B"] =
          some L ∧
      detect ctxW (some (some "c.xy")) (.ok "x") =
        .ok (some (.classifier L))) :=
  ⟨(detect_pipeline_spec ctxW (some "APKBUILD")).1 "APKBUILD" "Alpine Abuild"
      rfl (by decide) (.error ()),
    (detect_pipeline_spec ctxW (some "pizza.purs")).2.1 (by decide)
      "PureScript" (by decide) (.error ()),
    (detect_pipeline_spec ctxW (some "script")).2.2.1 (by decide) (by decide)
      "#!/usr/bin/python" "Python" (by decide),
    ((detect_pipeline_spec ctxW (some "a.es")).2.2.2 "'use strict';"
          (by decide) (by decide) (by decide)).2.1 "JavaScript" (by decide),
    ((detect_pipeline_spec ctxW (some "y")).2.2.2 "hello" (by decide)
          (by decide) (by decide)).1 (by decide),
    ((detect_pipeline_spec ctxW (some "c.xy")).2.2.2 "x" (by decide)
          (by decide) (by decide)).2.2 "A" "B" [] (by decide)⟩

/-! ## C10 -/

/-- **C10.** The filename and extension stages perform no file I/O: a
basename registered in `FILENAMES`, or one whose extension lists exactly one
language, decides the result for every file oracle — the failing one too —
so no I/O error can escape; and a path with no extractable basename yields
`Ok(None)` for every file oracle. -/
theorem detect_no_io_spec (T : DetectCtx) :
    (∀ file, detect T none file = .ok none) ∧
    (∀ filename L, T.filenames filename = some L →
      ∀ file, detect T (some (some filename)) file =
        .ok (some (.filename L))) ∧
    (∀ filename? L,
      filename?.bind (fun filename => T.filenames filename) = none →
      extCandidates T filename? = [L] →
      ∀ file, detect T (some filename?) file =
        .ok (some (.extension L))) := by
  refine ⟨?_, ?_, ?_⟩
  · intro file
    rfl
  · intro filename L h file
    simp [detect.eq_def, h]
  · intro filename? L h1 h2 file
    simp [detect.eq_def, h1, h2]

/-- Witness for C10: with the always-failing file oracle, the no-basename
case yields `Ok(None)` and the filename/extension stages still succeed. -/
theorem detect_no_io_spec_witness :
    detect ctxW none (.error ()) = .ok none ∧
    detect ctxW (some (some "APKBUILD")) (.error ()) =
      .ok (some (.filename "Alpine Abuild")) ∧
    detect ctxW (some (some "pizza.purs")) (.error ()) =
      .ok (some (.extension "PureScript")) :=
  ⟨(detect_no_io_spec ctxW).1 (.error ()),
    (detect_no_io_spec ctxW).2.1 "APKBUILD" "Alpine Abuild" (by decide)
      (.error ()),
    (detect_no_io_spec ctxW).2.2 (some "pizza.purs") "PureScript" (by decide)
      (by decide) (.error ())⟩

/-! ## `crates/polyglot_tokenizer/src/tokenizer.rs`

The streaming tokenizer behind `Tokenizer::tokens()`.  The iterator state
(`struct Tokens`) is a backlog queue, the remaining `char_indices` stream,
and `current_token_idx`; both queues carry `(byte index, char)` pairs.
Token slices are represented by their byte spans `(start, stop)` in the
content; the content itself is carried as its full `char_indices` list
`idx` (for the re-feeding recovery paths) plus its byte length `cl`
(`content.len()`).  The `take_if` loops consume only — they never push to
the backlog — so they recurse structurally first on the backlog, then on
the stream. -/

/-- A byte span `(start, stop)` of a slice borrowed from the content. -/
abbrev Span := Nat × Nat

/-- The `Token` enum of the polyglot tokenizer, with slices as spans. -/
inductive PTok where
  | blockComment (opener body closer : Span)
  | ident (s : Span)
  | lineComment (opener body : Span)
  | number (s : Span)
  | str (opener body closer : Span)
  | symbol (s : Span)
  deriving DecidableEq

/-- The spans of a token's slice fields, in field order. -/
def PTok.spans : PTok → List Span
  | .blockComment a b c => [a, b, c]
  | .ident a => [a]
  | .lineComment a b => [a, b]
  | .number a => [a]
  | .str a b c => [a, b, c]
  | .symbol a => [a]

/-- The mutable state of `struct Tokens`: backlog, remaining chars, and
`current_token_idx`. -/
structure PTState where
  backlog : List (Nat × Char)
  rest : List (Nat × Char)
  tokenStart : Nat
  deriving DecidableEq

/-- `Tokens::peek`: front of the backlog, else the next stream char. -/
def PTState.peek (st : PTState) : Option (Nat × Char) :=
  match st.backlog with
  | ic :: _ => some ic
  | [] => st.rest.head?

/-- Drop the character `peek` would yield (the state part of
`Tokens::advance`). -/
def PTState.bump (st : PTState) : PTState :=
  match st.backlog with
  | _ :: bl => { st with backlog := bl }
  | [] => { st with rest := st.rest.tail }

/-- `Tokens::push_backlog`: the new characters go to the front of the
backlog, in order. -/
def PTState.pushBacklog (st : PTState) (newChars : List (Nat × Char)) :
    PTState :=
  { st with backlog := newChars ++ st.backlog }

/-- `Tokens::start_new_token`: advance and record the new
`current_token_idx`. -/
def startNewToken (st : PTState) : Option (Char × PTState) :=
  match st.backlog with
  | (i, c) :: bl => some (c, { st with backlog := bl, tokenStart := i })
  | [] =>
    match st.rest with
    | (i, c) :: rest => some (c, { st with rest := rest, tokenStart := i })
    | [] => none

/-- The stream phase of a `take_if` loop (backlog already exhausted). -/
def takeIfRest {σ : Type} (cl : Nat) (cond : σ → Char → Bool × σ) (s : σ) :
    List (Nat × Char) → Nat × σ × List (Nat × Char)
  | [] => (cl, s, [])
  | (i, c) :: rest =>
    match cond s c with
    | (true, s') =>
      let (e, s'', rest') := takeIfRest cl cond s' rest
      (e, s'', rest')
    | (false, s') => (i, s', (i, c) :: rest)

/-- `Tokens::take_if`: peek characters (backlog first, then the stream) and
consume while the stateful condition holds; the break index is the index of
the first unconsumed character, `content.len()` at end of input. -/
def takeIfS {σ : Type} (cl : Nat) (cond : σ → Char → Bool × σ) (s : σ)
    (st : PTState) : Nat × σ × PTState :=
  go s st.backlog st.rest st.tokenStart
where
  go (s : σ) : List (Nat × Char) → List (Nat × Char) → Nat →
      Nat × σ × PTState
    | [], rest, ts =>
      let (e, s', rest') := takeIfRest cl cond s rest
      (e, s', ⟨[], rest', ts⟩)
    | (i, c) :: bl, rest, ts =>
      match cond s c with
      | (true, s') => go s' bl rest ts
      | (false, s') => (i, s', ⟨(i, c) :: bl, rest, ts⟩)

/-- `Tokens::eat_whitespace` (returns only the state; the break index is
unused at its call site). -/
def eatWhitespace (cl : Nat) (st : PTState) : PTState :=
  (takeIfS cl (fun (_ : Unit) c => (rIsWhitespace c, ())) () st).2.2

/-- `Tokens::eat_non_newline_whitespace`: consume whitespace other than
`\n` / `\r`, returning the break index. -/
def eatNonNewlineWs (cl : Nat) (st : PTState) : Nat × PTState :=
  let (e, _, st') := takeIfS cl
    (fun (_ : Unit) c => (rIsWhitespace c && !(c = '\n') && !(c = '\r'), ()))
    () st
  (e, st')

/-- The stateful condition of `take_block`: `prev_chars` is the
`CircularQueue` contents, newest first; a character is taken only while the
queue does not yet read as the end sequence, and is pushed only when taken
(the literal translation of the source closure). -/
def takeBlockCond (endSeq : List Char) (q : List Char) (c : Char) :
    Bool × List Char :=
  let shouldTake := q == endSeq
  (shouldTake, if shouldTake then (c :: q).take endSeq.length else q)

/-- `Tokens::take_block`: scan with `takeBlockCond`; on success slice the
body and the end sequence, otherwise emit the single-character `Symbol` for
the opener and re-feed `content[token_start+1 .. end)` (with original byte
indices) through the backlog. -/
def takeBlock (cl : Nat) (idx : List (Nat × Char)) (contentIdx : Nat)
    (endSeq : List Char) (st : PTState) : Except PTok (Span × Span) × PTState :=
  let ts := st.tokenStart
  let (e, q, st') := takeIfS cl (takeBlockCond endSeq) [] st
  if q == endSeq then
    (.ok ((contentIdx, e - endSeq.length), (e - endSeq.length, e)), st')
  else
    let backlogStart := ts + 1
    let backlogChars :=
      idx.filter (fun ic => backlogStart ≤ ic.1 && ic.1 < e)
    (.error (PTok.symbol (ts, backlogStart)), st'.pushBacklog backlogChars)

/-- The opener-matching loop of `Tokens::block_comment`: the first character
of `start_sequence` is already consumed; peek the rest in turn.  Returns
whether the full opener matched, how many characters matched (the length of
the local `symbol`), and the state. -/
def matchOpener (matched : Nat) : List Char → PTState → Bool × Nat × PTState
  | [], st => (true, matched, st)
  | e :: es, st =>
    match st.peek with
    | some (_, c) =>
      if c = e then matchOpener (matched + 1) es st.bump
      else (false, matched, st)
    | none => (false, matched, st)

/-- `Tokens::block_comment`.  On a partially matched opener the source
pushes `symbol[1..]` back with indices `idx + token_start` — one less than
the true byte positions (its two sibling recovery paths use
`idx + backlog_start` with `backlog_start = token_start + 1`). -/
def blockComment (cl : Nat) (idx : List (Nat × Char)) (startSeq endSeq : List Char)
    (st : PTState) : PTok × PTState :=
  let ts := st.tokenStart
  match matchOpener 1 (startSeq.drop 1) st with
  | (false, matched, st') =>
    let backlogChars :=
      ((startSeq.take matched).drop 1).enum.map (fun jc => (jc.1 + ts, jc.2))
    (PTok.symbol (ts, ts + 1), st'.pushBacklog backlogChars)
  | (true, _, st') =>
    let symbolSpan : Span := (ts, ts + startSeq.length)
    match takeBlock cl idx (ts + startSeq.length) endSeq st' with
    | (.ok (body, closer), st'') =>
      (PTok.blockComment symbolSpan body closer, st'')
    | (.error tok, st'') => (tok, st'')

/-- The shared line-comment tail: take the full run of the marker character,
eat non-newline whitespace, and take the body up to the line end. -/
def lineComment (cl : Nat) (marker : Char) (st : PTState) : PTok × PTState :=
  let ts := st.tokenStart
  let (e1, _, st) := takeIfS cl (fun (_ : Unit) c => (c = marker, ())) () st
  let (commentStart, st) := eatNonNewlineWs cl st
  let (commentEnd, _, st) := takeIfS cl
    (fun (_ : Unit) c => (!(c = '\r') && !(c = '\n'), ())) () st
  (PTok.lineComment (ts, e1) (commentStart, commentEnd), st)

/-- The stateful condition of `numeric_closure`: digits and `_`, plus at
most one decimal point. -/
def numericCond (seenDecimal : Bool) (c : Char) : Bool × Bool :=
  if rIsNumeric c || c = '_' then (true, seenDecimal)
  else if c = '.' && !seenDecimal then (true, true)
  else (false, seenDecimal)

/-- `rIsNumeric c || c = '_'` specialised conditions of the `0b`/`0o`/`0x`
branches. -/
def rIsHexDigit (c : Char) : Bool :=
  rIsDigit c || ('a' ≤ c && c ≤ 'f') || ('A' ≤ c && c ≤ 'F')

/-- The string arm of `Tokens::next` for quote character `q`. -/
def stringToken (cl : Nat) (idx : List (Nat × Char)) (q : Char)
    (st : PTState) : PTok × PTState :=
  let ts := st.tokenStart
  let (e1, _, st) := takeIfS cl (fun (_ : Unit) c => (c = q, ())) () st
  let symbolLen := e1 - ts
  if symbolLen = 1 then
    let cond : Bool → Char → Bool × Bool := fun escaped c =>
      (!((c = q && !escaped) || c = '\n'), c = '\\' && !escaped)
    let (strEnd, _, st) := takeIfS cl cond false st
    match st.peek with
    | some (_, c) =>
      if c = q then
        (PTok.str (ts, ts + 1) (ts + 1, strEnd) (strEnd, strEnd + 1), st.bump)
      else
        let backlogStart := ts + 1
        let backlogChars :=
          idx.filter (fun ic => backlogStart ≤ ic.1 && ic.1 < strEnd)
        (PTok.symbol (ts, backlogStart), st.pushBacklog backlogChars)
    | none =>
      let backlogStart := ts + 1
      let backlogChars :=
        idx.filter (fun ic => backlogStart ≤ ic.1 && ic.1 < strEnd)
      (PTok.symbol (ts, backlogStart), st.pushBacklog backlogChars)
  else if symbolLen = 2 then
    (PTok.str (ts, ts + 1) (ts + 1, ts + 1) (ts + 1, ts + 2), st)
  else
    match takeBlock cl idx (ts + symbolLen) (List.replicate symbolLen q) st with
    | (.ok (body, closer), st') =>
      (PTok.str (ts, ts + symbolLen) body closer, st')
    | (.error tok, st') => (tok, st')

/-- `Tokens::next` (`impl Iterator for Tokens`): eat whitespace, start a new
token at the next character, and dispatch on it in the source's arm
order. -/
def ptNext (cl : Nat) (idx : List (Nat × Char)) (st : PTState) :
    Option (PTok × PTState) :=
  let st := eatWhitespace cl st
  match startNewToken st with
  | none => none
  | some (ch, st) =>
    let ts := st.tokenStart
    if rIsAlphabetic ch || ch = '_' then
      let (e, _, st) := takeIfS cl
        (fun (_ : Unit) c => (rIsAlphanumeric c || c = '_', ())) () st
      some (PTok.ident (ts, e), st)
    else if ch = '0' then
      match st.peek with
      | some (_, 'b') =>
        let st := st.bump
        let (e, _, st) := takeIfS cl
          (fun (_ : Unit) c => (c = '1' || c = '0' || c = '_', ())) () st
        some (PTok.number (ts, e), st)
      | some (_, 'o') =>
        let st := st.bump
        let (e, _, st) := takeIfS cl
          (fun (_ : Unit) c => (('0' ≤ c && c ≤ '7') || c = '_', ())) () st
        some (PTok.number (ts, e), st)
      | some (_, 'x') =>
        let st := st.bump
        let (e, _, st) := takeIfS cl
          (fun (_ : Unit) c => (rIsHexDigit c || c = '_', ())) () st
        some (PTok.number (ts, e), st)
      | _ =>
        let (e, _, st) := takeIfS cl numericCond false st
        some (PTok.number (ts, e), st)
    else if ch = '-' || ch = '+' then
      match st.peek with
      | some (_, c) =>
        if rIsNumeric c then
          let (e, _, st) := takeIfS cl numericCond false st
          some (PTok.number (ts, e), st)
        else if c = '-' && ch = '-' then
          some (lineComment cl '-' st)
        else some (PTok.symbol (ts, ts + 1), st)
      | none => some (PTok.symbol (ts, ts + 1), st)
    else if rIsNumeric ch then
      let (e, _, st) := takeIfS cl numericCond false st
      some (PTok.number (ts, e), st)
    else if ch = '/' then
      match st.peek with
      | some (_, '/') => some (lineComment cl '/' st)
      | some (_, '*') => some (blockComment cl idx ['/', '*'] ['*', '/'] st)
      | _ => some (PTok.symbol (ts, ts + 1), st)
    else if ch = '{' then
      match st.peek with
      | some (_, '-') => some (blockComment cl idx ['{', '-'] ['-', '}'] st)
      | _ => some (PTok.symbol (ts, ts + 1), st)
    else if ch = '(' then
      match st.peek with
      | some (_, '*') => some (blockComment cl idx ['(', '*'] ['*', ')'] st)
      | _ => some (PTok.symbol (ts, ts + 1), st)
    else if ch = '<' then
      some (blockComment cl idx ['<', '!', '-', '-'] ['-', '-', '>'] st)
    else if ch = '#' then
      some (lineComment cl '#' st)
    else if ch = '%' then
      some (lineComment cl '%' st)
    else if ch = '"' || ch = '\'' || ch = '`' then
      some (stringToken cl idx ch st)
    else if rIsAsciiPunctuation ch then
      some (PTok.symbol (ts, ts + 1), st)
    else
      some (PTok.symbol (ts, ts + ch.utf8Size), st)

/-- Iterate `ptNext` to exhaustion.  Every yielded token consumes at least
one character net of the re-fed backlog (each recovery re-feeds exactly the
characters it consumed except the opener), so fuel `#chars + 1` always
reaches the end of the stream. -/
def ptRun (cl : Nat) (idx : List (Nat × Char)) : Nat → PTState → List PTok
  | 0, _ => []
  | fuel + 1, st =>
    match ptNext cl idx st with
    | none => []
    | some (t, st') => t :: ptRun cl idx fuel st'

/-- `content.char_indices()`: characters with their UTF-8 byte offsets. -/
def byteIdx : List Char → Nat → List (Nat × Char)
  | [], _ => []
  | c :: cs, i => (i, c) :: byteIdx cs (i + c.utf8Size)

/-- The token stream of `Tokenizer::new(content).tokens()`. -/
def polyglotTokens (content : String) : List PTok :=
  let idx := byteIdx content.data 0
  ptRun content.utf8ByteSize idx (content.data.length + 1)
    ⟨[], idx, 0⟩

/-- Well-formed span chains: within and between consecutive spans, positions
are non-decreasing (so spans are non-overlapping and in order). -/
def spansChainOk : List Span → Bool
  | [] => true
  | [se] => se.1 ≤ se.2
  | (s, e) :: (s', e') :: tail =>
    s ≤ e && e ≤ s' && spansChainOk ((s', e') :: tail)

/-! ## C8 -/

/-- **C8 (code bug).** On `"<!x"` the partially matched `<!--` opener is
re-fed through the backlog with byte index `0` instead of `1`
(`block_comment` maps `symbol[1..]` with `idx + token_start` where its
sibling recovery paths use `idx + backlog_start`), so the tokenizer emits
the `Symbol` span `(0, 1)` twice: the spans overlap, and the second token's
slice reads `"<"` although the re-fed character was `'!'`.  Iteration still
terminates and yields no error value (the fuel `#chars + 1` is never
exhausted, every step consuming at least one character net), and on inputs
avoiding the partial-`<!--` path the spans do chain correctly. -/
theorem ptokenizer_span_overlap_bug :
    polyglotTokens "<!x" =
      [PTok.symbol (0, 1), PTok.symbol (0, 1), PTok.ident (2, 3)] ∧
    spansChainOk ((polyglotTokens "<!x").flatMap PTok.spans) = false ∧
    spansChainOk ((polyglotTokens "let x = 5;").flatMap PTok.spans) = true ∧
    spansChainOk ((polyglotTokens "\"Hello\n10").flatMap PTok.spans) = true := by
  refine ⟨by decide, by decide, by decide, by decide⟩

/-! ## Sanity checks

The embeddings reproduce the source's own unit tests (those not depending
on the generated tables, which are instantiated with small fragments). -/

example :
    tokenize "fn main() \x7b let x_x = 5; println!(\"\x7b\x7d\", x); \x7d" =
      ["fn", "main", "(", ")", "\x7b", "let", "x_x", "=", "5", ";", "println",
        "!", "(", "\"", "\x7b", "\x7d", "\"", ",", "x", ")", ";", "\x7d"] := by
  decide

example : tokenize "" = [] := by decide

example :
    filter_candidates ["JavaScript", "Python"] ["Python", "Bibbity"] =
      ["Python"] := by decide

example :
    filter_candidates ["JavaScript", "Python"] [] =
      ["JavaScript", "Python"] := by decide

example :
    filter_candidates [] ["JavaScript", "Erlang"] =
      ["JavaScript", "Erlang"] := by decide

example :
    get_extension (fun s => s == ".djs") "index.djs" = some ".djs" := by decide

example :
    get_extension (fun s => s == ".c" || s == ".notrealextension")
      "nonsense.notrealextension.c" = some ".c" := by decide

example :
    get_extension (fun s => s == ".c") "uppercase.C" = some ".c" := by decide

example :
    get_extension (fun s => s == ".json") ".eslintrc.json" = some ".json" := by
  decide

example : get_extension (fun s => s == ".cs") ".cs" = none := by decide

example :
    get_languages_from_shebang interpsPython (fun _ => none)
      "#!/usr/bin/python" = ["Python"] := by decide

example :
    get_languages_from_shebang
      (fun s => if s = "node" then some ["JavaScript"] else none)
      (fun _ => none) "#!/usr/bin/env node" = ["JavaScript"] := by decide

example :
    get_languages_from_shebang interpsPython (fun _ => none)
      "#!/usr/bin/python2.6" = ["Python"] := by decide

example :
    get_languages_from_shebang interpsPython (fun _ => none)
      "#!/usr/bin/env" = [] := by decide

example :
    get_languages_from_shebang interpsPython (fun _ => none) "#!" = [] := by
  decide

example :
    get_languages_from_shebang interpsPython (fun _ => none) "" = [] := by
  decide

example :
    get_languages_from_shebang interpsPython (fun _ => none)
      " #!/usr/bin/python" = [] := by decide

example :
    get_languages_from_shebang
      (fun s => if s = "scala" then some ["Scala"] else none)
      (fun extra =>
        if extra = "exec scala \"$0\" \"$@\"\n!#" then some "scala" else none)
      "#!/bin/sh\nexec scala \"$0\" \"$@\"\n!#" = ["Scala"] := by decide

example :
    polyglotTokens "1; -1_000; 1.5; 0b1010;" =
      [PTok.number (0, 1), PTok.symbol (1, 2), PTok.number (3, 9),
        PTok.symbol (9, 10), PTok.number (11, 14), PTok.symbol (14, 15),
        PTok.number (16, 22), PTok.symbol (22, 23)] := by decide

example :
    polyglotTokens "// this is a line comment" =
      [PTok.lineComment (0, 2) (3, 25)] := by decide

example :
    polyglotTokens "\"Hello, World\"" =
      [PTok.str (0, 1) (1, 13) (13, 14)] := by decide

example :
    polyglotTokens "\"Hello World'" =
      [PTok.symbol (0, 1), PTok.ident (1, 6), PTok.ident (7, 12),
        PTok.symbol (12, 13)] := by decide
